import Mathlib

/-!
Shallow embedding of `ta_dashboard_dash.py`: the two-provider fetch with
fallback (`fetch_data`) and the three indicator computations (`calc_bb`,
`calc_macd`, `calc_rsi`).

Modelling conventions:
* pandas `DataFrame` is a `Frame`: column labels (possibly multi-level,
  to model a `MultiIndex`), an integer index (dates are encoded as
  integers, order-isomorphically), and rows of cells.
* A cell is a number or a string (the Stooq CSV carries its dates as
  strings in the `Date` column).
* The two network providers are abstracted as `Except String Frame`
  inputs: `.error e` models the provider call raising, `.ok df` models it
  returning a data frame.  `fetch_data` returns the resulting frame
  together with a flag recording whether the second provider was invoked.
* pandas floating point numbers are modelled as exact rationals `ℚ`;
  `NaN` is modelled as `none` in `Option ℚ`.  The floating point square
  root used by `rolling(n).std()` is abstracted as an explicit function
  parameter `sqrtQ : ℚ → ℚ` (theorems only ever need `sqrtQ 0 = 0`).
-/

/-- A cell of a CSV / data frame: a number or a string. -/
inductive Cell where
  | num (q : ℚ)
  | str (s : String)
deriving DecidableEq

/-- A pandas `DataFrame`: column labels (a flat `Index` has singleton
labels, a `MultiIndex` has labels of length ≥ 2), an integer row index,
and the rows of cells. -/
structure Frame where
  cols  : List (List String)
  index : List Int
  cells : List (List Cell)
deriving DecidableEq

/-- `pd.DataFrame()`: the empty frame returned when everything fails. -/
def Frame.emptyF : Frame := ⟨[], [], []⟩

/-- `df.empty`: true when any axis has length 0. -/
def Frame.emptyb (f : Frame) : Bool := f.index.isEmpty || f.cols.isEmpty

/-- `isinstance(df.columns, pd.MultiIndex)`: some column label has more
than one level. -/
def Frame.multiB (f : Frame) : Bool := f.cols.any fun c => 1 < c.length

/-- `df.columns = df.columns.get_level_values(0)` applied when the
columns are a `MultiIndex` (the yfinance branch of `fetch_data`). -/
def flattenIfMulti (f : Frame) : Frame :=
  if f.multiB then ⟨f.cols.map (fun c => [c.headD ""]), f.index, f.cells⟩ else f

/-- Split a character list on the dash character. -/
def splitDash : List Char → List (List Char)
  | [] => [[]]
  | c :: cs =>
    if c = '-' then [] :: splitDash cs
    else
      match splitDash cs with
      | [] => [[c]]
      | g :: gs => (c :: g) :: gs

/-- Read a non-empty all-digit character group as a number. -/
def digitsAux : List Char → Nat → Option Nat
  | [], acc => some acc
  | c :: cs, acc =>
    if '0' ≤ c ∧ c ≤ '9' then digitsAux cs (acc * 10 + (c.toNat - '0'.toNat))
    else none

/-- Read a digit group; the empty group is rejected. -/
def digitsToNat? (cs : List Char) : Option Nat :=
  match cs with
  | [] => none
  | _ => digitsAux cs 0

/-- `pd.to_datetime` on a `YYYY-MM-DD` date string (the format Stooq
emits), encoded order-isomorphically as y·10000 + m·100 + d.  `none`
models the parse raising. -/
def parseYMD (s : String) : Option Int :=
  match splitDash s.toList with
  | [y, m, d] =>
    match digitsToNat? y, digitsToNat? m, digitsToNat? d with
    | some yn, some mn, some dn => some ((yn * 10000 + mn * 100 + dn : Nat) : Int)
    | _, _, _ => none
  | _ => none

/-- `pd.to_datetime` on one cell.  A numeric cell is accepted (pandas
reads numbers as epoch offsets); it is encoded by its floor. -/
def parseCell : Cell → Option Int
  | .str s => parseYMD s
  | .num q => some ⌊q⌋

/-- `'Date' in df.columns` for the flat columns of a CSV frame. -/
def hasDateB (f : Frame) : Bool :=
  (f.cols.findIdx? (fun c => c == ["Date"])).isSome

/-- `df['Date'] = pd.to_datetime(df['Date']); df.set_index('Date')`:
parse the first `Date` column of every row and move it into the index.
`none` models any of the involved pandas calls raising. -/
def setDateIndex (f : Frame) : Option Frame :=
  match f.cols.findIdx? (fun c => c == ["Date"]) with
  | none => none
  | some j =>
    match f.cells.mapM (fun row => (row.get? j).bind parseCell) with
    | none => none
    | some dates =>
      some ⟨f.cols.eraseIdx j, dates, f.cells.map (·.eraseIdx j)⟩

/-- Ordering of (index value, row) pairs by the index value. -/
def keyLe (a b : Int × List Cell) : Prop := a.1 ≤ b.1

instance : DecidableRel keyLe := fun a b => inferInstanceAs (Decidable (a.1 ≤ b.1))

instance : IsTotal (Int × List Cell) keyLe := ⟨fun a b => Int.le_total a.1 b.1⟩

instance : IsTrans (Int × List Cell) keyLe := ⟨fun _ _ _ h h' => le_trans h h'⟩

/-- `df.sort_index()`: sort the rows by index value, ascending (pandas
leaves the relative order of equal keys unspecified; this model uses a
stable sort, one valid refinement). -/
def sortFrame (f : Frame) : Frame :=
  let ps := List.insertionSort keyLe (f.index.zip f.cells)
  ⟨f.cols, ps.map Prod.fst, ps.map Prod.snd⟩

/-- Attempt 2 of `fetch_data` (the Stooq CSV branch): given the outcome
of `pd.read_csv(url)`, return the date-indexed sorted frame when the CSV
is non-empty and has a `Date` column and its dates parse; otherwise the
code falls to `return pd.DataFrame()` (every raise inside the branch is
caught). -/
def processSecondary (s : Except String Frame) : Frame :=
  match s with
  | .error _ => Frame.emptyF
  | .ok df =>
    if df.emptyb = false ∧ hasDateB df = true then
      match setDateIndex df with
      | some g => sortFrame g
      | none => Frame.emptyF
    else Frame.emptyF

/-- `fetch_data(asset, start_date, end_date)`, with the two network
providers abstracted as their outcomes.  Attempt 1: if yfinance raised
(`.error`) or returned an empty frame, fall through; otherwise flatten a
`MultiIndex` column set and return.  Attempt 2: the Stooq branch.  The
returned flag records whether attempt 2 ran, i.e. whether the secondary
provider was invoked. -/
def fetch_data (p s : Except String Frame) : Frame × Bool :=
  match p with
  | .ok df => if df.emptyb then (processSecondary s, true) else (flattenIfMulti df, false)
  | .error _ => (processSecondary s, true)

/-- "The primary provider raises an error or returns an empty result." -/
def primaryUnusable (p : Except String Frame) : Prop :=
  (∃ e, p = Except.error e) ∨ (∃ df, p = Except.ok df ∧ df.emptyb = true)

/-- The canonical schema of §4.1: the flat columns are exactly
{Open, High, Low, Close} with Volume optional (the date is the index). -/
def canonicalCols (cs : List (List String)) : Prop :=
  (∀ c ∈ cs, c = ["Open"] ∨ c = ["High"] ∨ c = ["Low"] ∨ c = ["Close"] ∨ c = ["Volume"]) ∧
  ["Open"] ∈ cs ∧ ["High"] ∈ cs ∧ ["Low"] ∈ cs ∧ ["Close"] ∈ cs

instance (cs : List (List String)) : Decidable (canonicalCols cs) := by
  unfold canonicalCols; infer_instance

/-- A pandas `Series` with index `idx` (dates) and values `vals`.  All
series derived from one close series share its index, so the pandas
index alignment in the arithmetic below is positional. -/
structure Series (α : Type) where
  idx  : List Int
  vals : List α
deriving DecidableEq

/-- NaN-propagating addition (`NaN + x = NaN`). -/
def optAdd : Option ℚ → Option ℚ → Option ℚ
  | some a, some b => some (a + b)
  | _, _ => none

/-- NaN-propagating subtraction. -/
def optSub : Option ℚ → Option ℚ → Option ℚ
  | some a, some b => some (a - b)
  | _, _ => none

/-- NaN-propagating division.  pandas produces `±inf` (or `NaN` for
`0/0`) on a zero denominator; in the code below the denominator is never
a defined zero (`loss.replace(0, nan)` removes zeros before dividing, and
`1 + rs ≥ 1`), so the zero case is unreachable and modelled as undefined. -/
def optDiv : Option ℚ → Option ℚ → Option ℚ
  | some a, some b => if b = 0 then none else some (a / b)
  | _, _ => none

/-- Multiplication by a scalar (`k * std`): NaN-propagating. -/
def optScale (k : ℚ) : Option ℚ → Option ℚ := Option.map (fun x => k * x)

/-- Elementwise combination of two aligned series. -/
def szip (f : Option ℚ → Option ℚ → Option ℚ) (a b : Series (Option ℚ)) :
    Series (Option ℚ) :=
  ⟨a.idx, List.zipWith f a.vals b.vals⟩

/-- Elementwise map over a series. -/
def smap (f : Option ℚ → Option ℚ) (a : Series (Option ℚ)) : Series (Option ℚ) :=
  ⟨a.idx, a.vals.map f⟩

/-- Value of a series at position `t` (`none` out of range). -/
def vAt (s : Series (Option ℚ)) (t : Nat) : Option ℚ := s.vals.getD t none

/-- The window of the last `n` values ending at position `t` (pandas
`rolling(n)` at row `t`: take the first `t+1` values, keep the last `n`). -/
def windowAt (n : Nat) (xs : List ℚ) (t : Nat) : List ℚ :=
  (xs.take (t + 1)).drop (t + 1 - n)

/-- `close.rolling(n).mean()`: `min_periods` defaults to the window size,
and the effective minimum number of observations is `max n 1`, so the
value is defined exactly when the window holds `max n 1` observations
(all inputs are defined numbers here). -/
def rollingMean (n : Nat) (xs : List ℚ) : List (Option ℚ) :=
  (List.range xs.length).map fun t =>
    let w := windowAt n xs t
    if max n 1 ≤ w.length then some (w.sum / (w.length : ℚ)) else none

/-- `close.rolling(n).std()` squared: the sample variance with `ddof = 1`
(`Σ (x − mean)² / (nobs − 1)`), `NaN` whenever `nobs ≤ 1`. -/
def rollingVar (n : Nat) (xs : List ℚ) : List (Option ℚ) :=
  (List.range xs.length).map fun t =>
    let w := windowAt n xs t
    if max n 1 ≤ w.length ∧ 2 ≤ w.length then
      some (((w.map fun x => (x - w.sum / (w.length : ℚ)) ^ 2).sum) / ((w.length : ℚ) - 1))
    else none

/-- `close.rolling(n).std()`: square root of the sample variance, the
floating point square root abstracted as `sqrtQ`. -/
def rollingStd (sqrtQ : ℚ → ℚ) (n : Nat) (xs : List ℚ) : List (Option ℚ) :=
  (rollingVar n xs).map (Option.map sqrtQ)

/-- One step of the pandas `ewm(adjust=False, ignore_na=False).mean()`
recursion (pandas `ewma` kernel): state = (current average, weight of the
old average).  On a NaN input after an observation the old weight decays
and the previous average is emitted; on an observation the average is
updated and the old weight resets to 1. -/
def ewmStep (a : ℚ) (st : Option ℚ × ℚ) (x : Option ℚ) :
    (Option ℚ × ℚ) × Option ℚ :=
  match st, x with
  | (none, w), none => ((none, w), none)
  | (none, _), some v => ((some v, 1), some v)
  | (some m, w), none => ((some m, w * (1 - a)), some m)
  | (some m, w), some v =>
      let w2 := w * (1 - a)
      let m2 := (w2 * m + a * v) / (w2 + a)
      ((some m2, 1), some m2)

/-- The `ewm(adjust=False).mean()` recursion from a given state. -/
def ewmAux (a : ℚ) (st : Option ℚ × ℚ) : List (Option ℚ) → List (Option ℚ)
  | [] => []
  | x :: xs =>
    let r := ewmStep a st x
    r.2 :: ewmAux a r.1 xs

/-- `series.ewm(..., adjust=False).mean()` (`min_periods` defaults to 0,
so the output is defined from the first observation on). -/
def ewm_mean (a : ℚ) (xs : List (Option ℚ)) : List (Option ℚ) :=
  ewmAux a (none, 1) xs

/-- `close.diff()`: NaN at position 0, `x[t] − x[t−1]` afterwards. -/
def diffL : List ℚ → List (Option ℚ)
  | [] => []
  | x :: xs => none :: List.zipWith (fun b a => some (b - a)) xs (x :: xs)

/-- `loss.replace(0, float('nan'))`. -/
def replace0 (o : Option ℚ) : Option ℚ := if o = some 0 then none else o

/-- `calc_bb(close, n, k)`: Bollinger Bands.  `rolling(n)` raises for a
negative window ("window must be an integer 0 or greater"), modelled as
`.error`; otherwise returns `(mid + k*std, mid, mid − k*std)`. -/
def calc_bb (sqrtQ : ℚ → ℚ) (close : Series ℚ) (n : Int) (k : ℚ) :
    Except String (Series (Option ℚ) × Series (Option ℚ) × Series (Option ℚ)) :=
  if n < 0 then Except.error "window must be an integer 0 or greater"
  else
    let mid : Series (Option ℚ) := ⟨close.idx, rollingMean n.toNat close.vals⟩
    let std : Series (Option ℚ) := ⟨close.idx, rollingStd sqrtQ n.toNat close.vals⟩
    Except.ok (szip optAdd mid (smap (optScale k) std), mid,
               szip optSub mid (smap (optScale k) std))

/-- `calc_macd(close, fast, slow, signal)`: `ewm(span=...)` raises unless
`span ≥ 1`, modelled as `.error`; the smoothing factor is `2/(span+1)`. -/
def calc_macd (close : Series ℚ) (fast slow signal : Int) :
    Except String (Series (Option ℚ) × Series (Option ℚ) × Series (Option ℚ)) :=
  if fast < 1 then Except.error "span must satisfy: span >= 1"
  else if slow < 1 then Except.error "span must satisfy: span >= 1"
  else
    let ema_fast : Series (Option ℚ) :=
      ⟨close.idx, ewm_mean (2 / ((fast : ℚ) + 1)) (close.vals.map some)⟩
    let ema_slow : Series (Option ℚ) :=
      ⟨close.idx, ewm_mean (2 / ((slow : ℚ) + 1)) (close.vals.map some)⟩
    let macd_line := szip optSub ema_fast ema_slow
    if signal < 1 then Except.error "span must satisfy: span >= 1"
    else
      let signal_line : Series (Option ℚ) :=
        ⟨close.idx, ewm_mean (2 / ((signal : ℚ) + 1)) macd_line.vals⟩
      Except.ok (macd_line, signal_line, szip optSub macd_line signal_line)

/-- `calc_rsi(close, n)`: `alpha = 1/n` raises `ZeroDivisionError` at
`n = 0`, and `ewm(alpha=...)` raises unless `0 < alpha ≤ 1` (so every
negative `n` raises too); both are modelled as `.error`. -/
def calc_rsi (close : Series ℚ) (n : Int) : Except String (Series (Option ℚ)) :=
  if n = 0 then Except.error "division by zero"
  else
    let a : ℚ := 1 / (n : ℚ)
    if 0 < a ∧ a ≤ 1 then
      let delta : Series (Option ℚ) := ⟨close.idx, diffL close.vals⟩
      let gain : Series (Option ℚ) :=
        ⟨close.idx, ewm_mean a (delta.vals.map (Option.map fun d => max d 0))⟩
      let loss : Series (Option ℚ) :=
        ⟨close.idx, ewm_mean a (delta.vals.map (Option.map fun d => -(min d 0)))⟩
      let rs := szip optDiv gain (smap replace0 loss)
      let onePlus := smap (Option.map fun q => 1 + q) rs
      let quot := smap (fun o => o.bind fun q =>
        if q = 0 then none else some (100 / q)) onePlus
      Except.ok (smap (Option.map fun q => 100 - q) quot)
    else Except.error "alpha must satisfy: 0 < alpha <= 1"

/-- The spec's recursive unadjusted EMA ("adjust=false semantics, seeded
directly from the first value"): `y₀ = x₀`, `yₜ = (1−α)·yₜ₋₁ + α·xₜ`.
Stated from the spec's words, to be compared with `ewm_mean`. -/
def emaRec (a m : ℚ) : List ℚ → List ℚ
  | [] => []
  | x :: xs =>
    let m2 := (1 - a) * m + a * x
    m2 :: emaRec a m2 xs

/-- The spec's EMA, seeded from the first value. -/
def emaSpec (a : ℚ) : List ℚ → List ℚ
  | [] => []
  | x :: xs => x :: emaRec a x xs

/-- The spec's "simple moving average of the n closes ending at t":
the sum of the window of `n` closes ending at position `t`, divided by
`n`.  Stated from the spec's words, to be compared with `rollingMean`. -/
def smaSpec (n : Nat) (xs : List ℚ) (t : Nat) : ℚ :=
  ((xs.drop (t + 1 - n)).take n).sum / (n : ℚ)

/-- The 30-day constant-100 close series of §8 item 6. -/
def constClose : Series ℚ := ⟨(List.range 30).map Int.ofNat, List.replicate 30 100⟩

/-- A primary-provider frame whose rows are not in date order (canonical
columns, two rows, index [2, 1]). -/
def c3Frame : Frame :=
  ⟨[["Open"], ["High"], ["Low"], ["Close"]], [2, 1],
   [[.num 1, .num 2, .num 0, .num 1], [.num 1, .num 2, .num 0, .num 1]]⟩

/-- A primary-provider frame with canonical columns and strictly
ascending dates. -/
def goodFrame : Frame :=
  ⟨[["Open"], ["High"], ["Low"], ["Close"]], [1, 2],
   [[.num 1, .num 2, .num 0, .num 1], [.num 1, .num 2, .num 0, .num 1]]⟩

/-- A secondary-provider CSV frame with two unsorted date rows. -/
def csvFrame : Frame :=
  ⟨[["Date"], ["Open"], ["High"], ["Low"], ["Close"]], [0, 1],
   [[.str "2020-01-03", .num 5, .num 6, .num 4, .num 5],
    [.str "2020-01-02", .num 7, .num 8, .num 6, .num 7]]⟩

/-- `csvFrame` after `set_index('Date')` (before sorting). -/
def csvDated : Frame :=
  ⟨[["Open"], ["High"], ["Low"], ["Close"]], [20200103, 20200102],
   [[.num 5, .num 6, .num 4, .num 5], [.num 7, .num 8, .num 6, .num 7]]⟩

/-- A secondary-provider CSV frame with rows but no `Date` column. -/
def noDateFrame : Frame :=
  ⟨[["Open"], ["Close"]], [0, 1], [[.num 1, .num 2], [.num 3, .num 4]]⟩

/-- The constant-zero stand-in for the abstracted floating point square
root (used to instantiate `sqrtQ` in concrete witnesses; any function
with `sqrtQ 0 = 0` matches IEEE sqrt on the inputs that arise there). -/
def zeroSqrt : ℚ → ℚ := fun _ => 0

/-- A small three-point close series for concrete witnesses. -/
def bbClose : Series ℚ := ⟨[0, 1, 2], [1, 3, 2]⟩

/-- A one-point close series for concrete witnesses. -/
def oneClose : Series ℚ := ⟨[0], [5]⟩

/-- The triple `calc_bb` returns when the window is non-negative:
`(mid + k*std, mid, mid - k*std)`. -/
def bbExpand (sqrtQ : ℚ → ℚ) (close : Series ℚ) (n : Int) (k : ℚ) :
    Series (Option ℚ) × Series (Option ℚ) × Series (Option ℚ) :=
  (szip optAdd ⟨close.idx, rollingMean n.toNat close.vals⟩
     (smap (optScale k) ⟨close.idx, rollingStd sqrtQ n.toNat close.vals⟩),
   ⟨close.idx, rollingMean n.toNat close.vals⟩,
   szip optSub ⟨close.idx, rollingMean n.toNat close.vals⟩
     (smap (optScale k) ⟨close.idx, rollingStd sqrtQ n.toNat close.vals⟩))

/-- The macd line of `calc_macd`: fast EMA minus slow EMA. -/
def macdLineS (close : Series ℚ) (fast slow : Int) : Series (Option ℚ) :=
  szip optSub ⟨close.idx, ewm_mean (2 / ((fast : ℚ) + 1)) (close.vals.map some)⟩
    ⟨close.idx, ewm_mean (2 / ((slow : ℚ) + 1)) (close.vals.map some)⟩

/-- The triple `calc_macd` returns when all three spans are ≥ 1:
`(macd_line, signal_line, histogram)`. -/
def macdExpand (close : Series ℚ) (fast slow signal : Int) :
    Series (Option ℚ) × Series (Option ℚ) × Series (Option ℚ) :=
  (macdLineS close fast slow,
   ⟨close.idx, ewm_mean (2 / ((signal : ℚ) + 1)) (macdLineS close fast slow).vals⟩,
   szip optSub (macdLineS close fast slow)
     ⟨close.idx, ewm_mean (2 / ((signal : ℚ) + 1)) (macdLineS close fast slow).vals⟩)

/-- The gain EMA of `calc_rsi`. -/
def gainS (close : Series ℚ) (n : Int) : Series (Option ℚ) :=
  ⟨close.idx, ewm_mean (1 / (n : ℚ)) ((diffL close.vals).map (Option.map fun d => max d 0))⟩

/-- The loss EMA of `calc_rsi`. -/
def lossS (close : Series ℚ) (n : Int) : Series (Option ℚ) :=
  ⟨close.idx, ewm_mean (1 / (n : ℚ)) ((diffL close.vals).map (Option.map fun d => -(min d 0)))⟩

/-- The series `calc_rsi` returns when `n ≥ 1`: `100 - 100/(1 + rs)`
with `rs = gain / loss.replace(0, nan)`. -/
def rsiExpand (close : Series ℚ) (n : Int) : Series (Option ℚ) :=
  smap (Option.map fun q => 100 - q)
    (smap (fun o => o.bind fun q => if q = 0 then none else some (100 / q))
      (smap (Option.map fun q => 1 + q)
        (szip optDiv (gainS close n) (smap replace0 (lossS close n)))))

theorem length_ewmAux (a : ℚ) (st : Option ℚ × ℚ) (xs : List (Option ℚ)) :
    (ewmAux a st xs).length = xs.length := by
  induction xs generalizing st with
  | nil => rfl
  | cons x xs ih => simp [ewmAux, ih]

theorem length_ewm_mean (a : ℚ) (xs : List (Option ℚ)) :
    (ewm_mean a xs).length = xs.length := length_ewmAux a _ xs

theorem length_rollingMean (n : Nat) (xs : List ℚ) :
    (rollingMean n xs).length = xs.length := by simp [rollingMean]

theorem length_rollingVar (n : Nat) (xs : List ℚ) :
    (rollingVar n xs).length = xs.length := by simp [rollingVar]

theorem length_rollingStd (sq : ℚ → ℚ) (n : Nat) (xs : List ℚ) :
    (rollingStd sq n xs).length = xs.length := by
  simp [rollingStd, length_rollingVar]

theorem length_diffL (xs : List ℚ) : (diffL xs).length = xs.length := by
  cases xs with
  | nil => rfl
  | cons x xs => simp [diffL]

theorem getD_range_map {α : Type} (f : Nat → α) (m t : Nat) (d : α) :
    (((List.range m).map f).getD t d) = if t < m then f t else d := by
  rcases Nat.lt_or_ge t m with h | h
  · rw [if_pos h, List.getD_eq_getElem?_getD, List.getElem?_map, List.getElem?_range h]
    rfl
  · rw [if_neg (Nat.not_lt.mpr h), List.getD_eq_getElem?_getD,
      List.getElem?_eq_none (by simpa using h)]
    rfl

theorem getD_zipWith (f : Option ℚ → Option ℚ → Option ℚ) (hf : f none none = none)
    (as bs : List (Option ℚ)) (h : as.length = bs.length) (t : Nat) :
    (List.zipWith f as bs).getD t none = f (as.getD t none) (bs.getD t none) := by
  induction as generalizing bs t with
  | nil =>
    cases bs with
    | nil => simp [hf]
    | cons b bs => simp at h
  | cons a as ih =>
    cases bs with
    | nil => simp at h
    | cons b bs =>
      cases t with
      | zero => rfl
      | succ t => simpa using ih bs (by simpa using h) t

theorem getD_map (g : Option ℚ → Option ℚ) (hg : g none = none)
    (as : List (Option ℚ)) (t : Nat) :
    ((as.map g).getD t none) = g (as.getD t none) := by
  induction as generalizing t with
  | nil => simp [hg]
  | cons a as ih =>
    cases t with
    | zero => rfl
    | succ t => simpa using ih t

theorem getD_map_some {α : Type} [Inhabited α] (g : α → Option ℚ)
    (as : List α) (t : Nat) (q : ℚ) (h : (as.map g).getD t none = some q) :
    ∃ x, as.getD t default = x ∧ t < as.length ∧ g (as.getD t default) = some q := by
  induction as generalizing t with
  | nil => simp at h
  | cons a as ih =>
    cases t with
    | zero => exact ⟨a, rfl, by simp, h⟩
    | succ t =>
      obtain ⟨x, hx, hlt, hg⟩ := ih t (by simpa using h)
      exact ⟨x, hx, by simpa using hlt, hg⟩

theorem ewmStep_some_one (a m v : ℚ) :
    ewmStep a (some m, 1) (some v) = ((some ((1 - a) * m + a * v), 1),
      some ((1 - a) * m + a * v)) := by
  have h1 : (1 : ℚ) * (1 - a) = 1 - a := one_mul _
  have h2 : (1 - a) + a = 1 := by ring
  simp only [ewmStep, h1, h2, div_one]

theorem ewmAux_defined (a m : ℚ) (xs : List ℚ) :
    ewmAux a (some m, 1) (xs.map some) = (emaRec a m xs).map some := by
  induction xs generalizing m with
  | nil => rfl
  | cons x xs ih =>
    simp only [List.map_cons, ewmAux, ewmStep_some_one, emaRec, ih]

/-- On a fully defined input the pandas `ewm(adjust=False)` kernel is
exactly the spec's recursive EMA seeded from the first value. -/
theorem ewm_mean_defined (a : ℚ) (xs : List ℚ) :
    ewm_mean a (xs.map some) = (emaSpec a xs).map some := by
  cases xs with
  | nil => rfl
  | cons x xs =>
    simp only [List.map_cons, ewm_mean, ewmAux, ewmStep, emaSpec]
    exact congrArg (some x :: ·) (ewmAux_defined a x xs)

theorem ewmAux_none_cons (a : ℚ) (w : ℚ) (xs : List (Option ℚ)) :
    ewmAux a (none, w) (none :: xs) = none :: ewmAux a (none, w) xs := rfl

theorem emaRec_const (a c : ℚ) (j : Nat) :
    emaRec a c (List.replicate j c) = List.replicate j c := by
  induction j with
  | zero => rfl
  | succ j ih =>
    have h : (1 - a) * c + a * c = c := by ring
    simp only [List.replicate_succ, emaRec, h, ih]

theorem emaSpec_const (a c : ℚ) (j : Nat) :
    emaSpec a (List.replicate j c) = List.replicate j c := by
  cases j with
  | zero => rfl
  | succ j => simp only [List.replicate_succ, emaSpec, emaRec_const]

theorem ewmAux_nonneg (a : ℚ) (ha : 0 < a) (ha' : a ≤ 1) :
    ∀ (xs : List (Option ℚ)), (∀ o ∈ xs, ∀ q : ℚ, o = some q → 0 ≤ q) →
      ∀ m w, 0 ≤ w → (∀ q : ℚ, m = some q → 0 ≤ q) →
      ∀ o ∈ ewmAux a (m, w) xs, ∀ q : ℚ, o = some q → 0 ≤ q := by
  intro xs
  induction xs with
  | nil => intro _ m w _ _ o ho; simp [ewmAux] at ho
  | cons x xs ih =>
    intro hxs m w hw hm
    have hx : ∀ q : ℚ, x = some q → 0 ≤ q := fun q hq => hxs x (List.mem_cons_self _ _) q hq
    have hxs' : ∀ o ∈ xs, ∀ q : ℚ, o = some q → 0 ≤ q :=
      fun o ho q hq => hxs o (List.mem_cons_of_mem _ ho) q hq
    have hwa : (0 : ℚ) ≤ w * (1 - a) := mul_nonneg hw (by linarith)
    cases m with
    | none =>
      cases x with
      | none =>
        intro o ho q hq
        simp only [ewmAux, ewmStep] at ho
        rcases List.mem_cons.mp ho with h | h
        · rw [h] at hq; simp at hq
        · exact ih hxs' none w hw hm o h q hq
      | some v =>
        have hv : 0 ≤ v := hx v rfl
        intro o ho q hq
        simp only [ewmAux, ewmStep] at ho
        rcases List.mem_cons.mp ho with h | h
        · rw [h] at hq; injection hq with h2; exact h2 ▸ hv
        · exact ih hxs' (some v) 1 (by norm_num)
            (fun q hq => by injection hq with h2; exact h2 ▸ hv) o h q hq
    | some mv =>
      have hmv : 0 ≤ mv := hm mv rfl
      cases x with
      | none =>
        intro o ho q hq
        simp only [ewmAux, ewmStep] at ho
        rcases List.mem_cons.mp ho with h | h
        · rw [h] at hq; injection hq with h2; exact h2 ▸ hmv
        · exact ih hxs' (some mv) (w * (1 - a)) hwa
            (fun q hq => by injection hq with h2; exact h2 ▸ hmv) o h q hq
      | some v =>
        have hv : 0 ≤ v := hx v rfl
        have hval : 0 ≤ (w * (1 - a) * mv + a * v) / (w * (1 - a) + a) :=
          div_nonneg (add_nonneg (mul_nonneg hwa hmv) (mul_nonneg ha.le hv))
            (le_of_lt (add_pos_of_nonneg_of_pos hwa ha))
        intro o ho q hq
        simp only [ewmAux, ewmStep] at ho
        rcases List.mem_cons.mp ho with h | h
        · rw [h] at hq; injection hq with h2; exact h2 ▸ hval
        · exact ih hxs' _ 1 (by norm_num)
            (fun q hq => by injection hq with h2; exact h2 ▸ hval) o h q hq

theorem windowAt_length (n : Nat) (xs : List ℚ) (t : Nat) (ht : t < xs.length) :
    (windowAt n xs t).length = min n (t + 1) := by
  simp only [windowAt, List.length_drop, List.length_take]
  omega

theorem rollingMean_getD (n : Nat) (xs : List ℚ) (t : Nat) (ht : t < xs.length) :
    (rollingMean n xs).getD t none =
      (if max n 1 ≤ (windowAt n xs t).length
       then some ((windowAt n xs t).sum / ((windowAt n xs t).length : ℚ)) else none) := by
  rw [rollingMean, getD_range_map, if_pos ht]

theorem rollingVar_getD (n : Nat) (xs : List ℚ) (t : Nat) (ht : t < xs.length) :
    (rollingVar n xs).getD t none =
      (if max n 1 ≤ (windowAt n xs t).length ∧ 2 ≤ (windowAt n xs t).length
       then some ((((windowAt n xs t).map fun x =>
          (x - (windowAt n xs t).sum / ((windowAt n xs t).length : ℚ)) ^ 2).sum) /
          (((windowAt n xs t).length : ℚ) - 1))
       else none) := by
  rw [rollingVar, getD_range_map, if_pos ht]

theorem getD_none_of_le (l : List (Option ℚ)) (t : Nat) (h : l.length ≤ t) :
    l.getD t none = none := by
  rw [List.getD_eq_getElem?_getD, List.getElem?_eq_none h]
  rfl

theorem mem_of_getD_some (l : List (Option ℚ)) (t : Nat) (q : ℚ)
    (h : l.getD t none = some q) : some q ∈ l := by
  rcases Nat.lt_or_ge t l.length with ht | ht
  · rw [List.getD_eq_getElem?_getD, List.getElem?_eq_getElem ht] at h
    have : l[t] = some q := h
    exact this ▸ List.getElem_mem ht
  · rw [getD_none_of_le l t ht] at h
    cases h

theorem rollingMean_defined (n : Nat) (xs : List ℚ) (t : Nat) (hn : 1 ≤ n)
    (h1 : n ≤ t + 1) (h2 : t < xs.length) :
    (rollingMean n xs).getD t none = some (smaSpec n xs t) := by
  have hlen : (windowAt n xs t).length = n := by
    rw [windowAt_length n xs t h2]; omega
  rw [rollingMean_getD n xs t h2, if_pos (by rw [hlen]; omega), hlen]
  have hwin : windowAt n xs t = (xs.drop (t + 1 - n)).take n := by
    rw [windowAt, List.drop_take]
    congr 1
    omega
  rw [hwin, smaSpec]

theorem rollingMean_none_of_lt (n : Nat) (xs : List ℚ) (t : Nat) (h1 : t + 1 < n) :
    (rollingMean n xs).getD t none = none := by
  rcases Nat.lt_or_ge t xs.length with ht | ht
  · rw [rollingMean_getD n xs t ht, if_neg]
    rw [windowAt_length n xs t ht]
    omega
  · exact getD_none_of_le _ t (by rw [length_rollingMean]; exact ht)

theorem rollingVar_none_of_le_one (n : Nat) (hn : n ≤ 1) (xs : List ℚ) :
    ∀ o ∈ rollingVar n xs, o = none := by
  intro o ho
  rw [rollingVar] at ho
  rcases List.mem_map.mp ho with ⟨t, ht, rfl⟩
  have ht' : t < xs.length := List.mem_range.mp ht
  have hcond : ¬ (max n 1 ≤ (windowAt n xs t).length ∧ 2 ≤ (windowAt n xs t).length) := by
    rw [windowAt_length n xs t ht']
    omega
  exact if_neg hcond

theorem rollingMean_none_of_zero (xs : List ℚ) : ∀ o ∈ rollingMean 0 xs, o = none := by
  intro o ho
  rw [rollingMean] at ho
  rcases List.mem_map.mp ho with ⟨t, ht, rfl⟩
  have ht' : t < xs.length := List.mem_range.mp ht
  have hcond : ¬ (max 0 1 ≤ (windowAt 0 xs t).length) := by
    rw [windowAt_length 0 xs t ht']
    omega
  exact if_neg hcond

theorem rollingMean_one (xs : List ℚ) : rollingMean 1 xs = xs.map some := by
  apply List.ext_getElem?
  intro t
  rcases Nat.lt_or_ge t xs.length with ht | ht
  · have hwin : windowAt 1 xs t = [xs[t]] := by
      rw [windowAt, List.drop_take, Nat.add_sub_cancel, List.drop_eq_getElem_cons ht]
      have h1 : t + 1 - t = 1 := by omega
      rw [h1]
      rfl
    rw [rollingMean, List.getElem?_map, List.getElem?_map,
      List.getElem?_range ht, List.getElem?_eq_getElem ht]
    show some (let w := windowAt 1 xs t
      if max 1 1 ≤ w.length then some (w.sum / (w.length : ℚ)) else none) = some (some xs[t])
    rw [hwin]
    norm_num
  · rw [List.getElem?_eq_none (by rw [length_rollingMean]; exact ht),
      List.getElem?_eq_none (by rw [List.length_map]; exact ht)]

theorem zipWith_none_right (f : Option ℚ → Option ℚ → Option ℚ)
    (hf : ∀ x, f x none = none) :
    ∀ (as bs : List (Option ℚ)), (∀ o ∈ bs, o = none) →
      ∀ o ∈ List.zipWith f as bs, o = none := by
  intro as
  induction as with
  | nil => intro bs _ o ho; simp at ho
  | cons a as ih =>
    intro bs hbs o ho
    cases bs with
    | nil => simp at ho
    | cons b bs =>
      rcases List.mem_cons.mp ho with h | h
      · rw [h, hbs b (List.mem_cons_self _ _), hf]
      · exact ih bs (fun o ho => hbs o (List.mem_cons_of_mem _ ho)) o h

theorem zip_map_fst_snd {α β : Type} (ps : List (α × β)) :
    (ps.map Prod.fst).zip (ps.map Prod.snd) = ps := by
  rw [List.zip_map']
  simp

theorem mapM_option_length {α β : Type} (f : α → Option β) :
    ∀ (l : List α) (l' : List β), l.mapM f = some l' → l'.length = l.length := by
  intro l
  induction l with
  | nil =>
    intro l' h
    simp only [List.mapM_nil, pure, Option.some.injEq] at h
    simp [← h]
  | cons x xs ih =>
    intro l' h
    simp only [List.mapM_cons, bind, Option.bind_eq_some, pure,
      Option.some.injEq] at h
    obtain ⟨y, _, ys, hys, hl⟩ := h
    simp [← hl, ih ys hys]

theorem setDateIndex_len (df g : Frame) (h : setDateIndex df = some g) :
    g.index.length = g.cells.length := by
  unfold setDateIndex at h
  split at h
  next => exact Option.noConfusion h
  next j hj =>
    split at h
    next => exact Option.noConfusion h
    next dates hm =>
      injection h with h
      rw [← h]
      simp [mapM_option_length _ _ _ hm]

theorem sortFrame_cols (f : Frame) : (sortFrame f).cols = f.cols := rfl

theorem sortFrame_sorted (f : Frame) : List.Sorted (· ≤ ·) (sortFrame f).index :=
  (List.sorted_insertionSort keyLe (f.index.zip f.cells)).map Prod.fst
    (fun _ _ hab => hab)

theorem sortFrame_perm (f : Frame) :
    ((sortFrame f).index.zip (sortFrame f).cells).Perm (f.index.zip f.cells) := by
  have hz : (sortFrame f).index.zip (sortFrame f).cells =
      List.insertionSort keyLe (f.index.zip f.cells) := zip_map_fst_snd _
  rw [hz]
  exact List.perm_insertionSort _ _

theorem sortFrame_index_perm (f : Frame) (hlen : f.index.length = f.cells.length) :
    (sortFrame f).index.Perm f.index := by
  have h := (List.perm_insertionSort keyLe (f.index.zip f.cells)).map Prod.fst
  rw [List.map_fst_zip f.index f.cells (le_of_eq hlen)] at h
  exact h

theorem sorted_nodup_chain_lt (l : List Int) (hs : List.Sorted (· ≤ ·) l)
    (hn : l.Nodup) : List.Chain' (· < ·) l := by
  apply List.chain'_iff_pairwise.mpr
  exact (hs.and hn).imp fun h => lt_of_le_of_ne h.1 h.2

/-- C1: whenever the primary provider raises or returns an empty frame
and the secondary provider returns a non-empty table with a `Date`
column whose dates parse, `fetch_data` returns the secondary series with
the parsed dates as index, sorted ascending (the result is a permutation
of the secondary's date-indexed rows); and whenever the primary provider
returns a non-empty result, the secondary provider is never invoked. -/
theorem claim_c1_fallback (p s : Except String Frame) :
    (primaryUnusable p → ∀ df g, s = Except.ok df → df.emptyb = false →
      hasDateB df = true → setDateIndex df = some g →
      fetch_data p s = (sortFrame g, true) ∧
      List.Sorted (· ≤ ·) (fetch_data p s).1.index ∧
      ((fetch_data p s).1.index.zip (fetch_data p s).1.cells).Perm
        (g.index.zip g.cells)) ∧
    (∀ df, p = Except.ok df → df.emptyb = false → (fetch_data p s).2 = false) := by
  constructor
  · intro hp df g hs hne hdate hset
    have hps : processSecondary s = sortFrame g := by
      rw [hs]
      simp only [processSecondary]
      rw [if_pos ⟨hne, hdate⟩, hset]
    have hfd : fetch_data p s = (sortFrame g, true) := by
      rcases hp with ⟨e, he⟩ | ⟨df0, hdf0, hemp⟩
      · rw [he]
        simp only [fetch_data]
        rw [hps]
      · rw [hdf0]
        simp only [fetch_data]
        simp [hemp, hps]
    refine ⟨hfd, ?_, ?_⟩
    · rw [hfd]
      exact sortFrame_sorted g
    · rw [hfd]
      exact sortFrame_perm g
  · intro df hdf hne
    rw [hdf]
    simp only [fetch_data]
    simp [hne]

/-- Witness for C1: a raising primary and a concrete two-row CSV whose
dates arrive out of order. -/
theorem claim_c1_fallback_witness :
    fetch_data (Except.error "host unreachable") (Except.ok csvFrame) =
      (sortFrame csvDated, true) ∧
    List.Sorted (· ≤ ·)
      (fetch_data (Except.error "host unreachable") (Except.ok csvFrame)).1.index ∧
    ((fetch_data (Except.error "host unreachable") (Except.ok csvFrame)).1.index.zip
      (fetch_data (Except.error "host unreachable") (Except.ok csvFrame)).1.cells).Perm
      (csvDated.index.zip csvDated.cells) :=
  (claim_c1_fallback (Except.error "host unreachable") (Except.ok csvFrame)).1
    (Or.inl ⟨_, rfl⟩) csvFrame csvDated rfl (by decide) (by decide) (by decide)

/-- C2: when the primary provider is unusable and the secondary provider
fails or yields no usable rows (raises, returns an empty table, lacks a
`Date` column, or its dates fail to parse), `fetch_data` returns the
empty frame.  No exception propagates: the embedding of `fetch_data` is a
total function consuming every provider-level error, and the empty frame
is its well-defined result. -/
theorem claim_c2_both_fail (p s : Except String Frame) (hp : primaryUnusable p)
    (hs : (∃ e, s = Except.error e) ∨
      ∃ df, s = Except.ok df ∧
        (df.emptyb = true ∨ hasDateB df = false ∨ setDateIndex df = none)) :
    fetch_data p s = (Frame.emptyF, true) := by
  have hps : processSecondary s = Frame.emptyF := by
    rcases hs with ⟨e, he⟩ | ⟨df, hdf, hcase⟩
    · rw [he]
      rfl
    · rw [hdf]
      simp only [processSecondary]
      rcases hcase with h | h | h
      · rw [if_neg]
        simp [h]
      · rw [if_neg]
        simp [h]
      · by_cases hc : df.emptyb = false ∧ hasDateB df = true
        · rw [if_pos hc, h]
        · rw [if_neg hc]
  rcases hp with ⟨e, he⟩ | ⟨df, hdf, hemp⟩
  · rw [he]
    simp only [fetch_data]
    rw [hps]
  · rw [hdf]
    simp only [fetch_data]
    simp [hemp, hps]

/-- Witness for C2: both providers raise. -/
theorem claim_c2_both_fail_witness :
    fetch_data (Except.error "timeout") (Except.error "404") = (Frame.emptyF, true) :=
  claim_c2_both_fail _ _ (Or.inl ⟨_, rfl⟩) (Or.inl ⟨_, rfl⟩)

/-- C10: a non-empty secondary table without a `Date` column is silently
treated as a failure: `fetch_data` returns the empty frame, not the
unordered rows, and raises nothing. -/
theorem claim_c10_missing_date (p s : Except String Frame) (hp : primaryUnusable p)
    (df : Frame) (hs : s = Except.ok df) (_hne : df.emptyb = false)
    (hd : hasDateB df = false) : fetch_data p s = (Frame.emptyF, true) := by
  have hps : processSecondary s = Frame.emptyF := by
    rw [hs]
    simp only [processSecondary]
    rw [if_neg]
    simp [hd]
  rcases hp with ⟨e, he⟩ | ⟨df0, hdf0, hemp⟩
  · rw [he]
    simp only [fetch_data]
    rw [hps]
  · rw [hdf0]
    simp only [fetch_data]
    simp [hemp, hps]

/-- Witness for C10: a raising primary and a concrete non-empty CSV with
columns Open and Close but no Date. -/
theorem claim_c10_missing_date_witness :
    fetch_data (Except.error "blocked") (Except.ok noDateFrame) = (Frame.emptyF, true) :=
  claim_c10_missing_date _ _ (Or.inl ⟨_, rfl⟩) noDateFrame rfl (by decide) (by decide)

/-- Counterexample to C3 as stated: `fetch_data` performs no sorting on
the primary path, so a primary frame whose rows arrive out of date order
is returned as-is — non-empty, canonical columns, but dates not strictly
ascending. -/
theorem claim_c3_counterexample :
    (fetch_data (Except.ok c3Frame) (Except.error "x")).1.emptyb = false ∧
    canonicalCols (fetch_data (Except.ok c3Frame) (Except.error "x")).1.cols ∧
    ¬ List.Chain' (· < ·) (fetch_data (Except.ok c3Frame) (Except.error "x")).1.index :=
  ⟨by decide, by decide, fun h => by
    have h' : List.Chain' (· < ·) ([2, 1] : List Int) := h
    have h2 : (2 : Int) < 1 := (List.chain'_cons.mp h').1
    norm_num at h2⟩

/-- C3 (amended): the code sorts only the secondary path and never
deduplicates, so the schema/ordering guarantee is conditional on the
providers.  Primary path: if the primary's frame (after `MultiIndex`
flattening) has canonical columns and strictly ascending dates,
`fetch_data` returns it with both properties intact.  Fallback path: if
the date-indexed secondary frame has canonical columns and
pairwise-distinct dates, `fetch_data` returns it with canonical columns
and strictly ascending, unique dates. -/
theorem claim_c3_schema (p s : Except String Frame) :
    (∀ df, p = Except.ok df → df.emptyb = false →
      canonicalCols (flattenIfMulti df).cols → List.Chain' (· < ·) df.index →
      canonicalCols (fetch_data p s).1.cols ∧
      List.Chain' (· < ·) (fetch_data p s).1.index) ∧
    (primaryUnusable p → ∀ df g, s = Except.ok df → df.emptyb = false →
      hasDateB df = true → setDateIndex df = some g → canonicalCols g.cols →
      g.index.Nodup →
      canonicalCols (fetch_data p s).1.cols ∧
      List.Chain' (· < ·) (fetch_data p s).1.index) := by
  constructor
  · intro df hdf hne hcanon hchain
    have hfd : fetch_data p s = (flattenIfMulti df, false) := by
      rw [hdf]
      simp only [fetch_data]
      simp [hne]
    have hidx : (flattenIfMulti df).index = df.index := by
      simp only [flattenIfMulti]
      split <;> rfl
    rw [hfd]
    exact ⟨hcanon, by rw [hidx]; exact hchain⟩
  · intro hp df g hs hne hdate hset hcanon hnodup
    have hps : processSecondary s = sortFrame g := by
      rw [hs]
      simp only [processSecondary]
      rw [if_pos ⟨hne, hdate⟩, hset]
    have hfd : fetch_data p s = (sortFrame g, true) := by
      rcases hp with ⟨e, he⟩ | ⟨df0, hdf0, hemp⟩
      · rw [he]
        simp only [fetch_data]
        rw [hps]
      · rw [hdf0]
        simp only [fetch_data]
        simp [hemp, hps]
    rw [hfd]
    refine ⟨hcanon, ?_⟩
    apply sorted_nodup_chain_lt
    · exact sortFrame_sorted g
    · exact ((sortFrame_index_perm g (setDateIndex_len df g hset)).nodup_iff).mpr hnodup

/-- Witness for the amended C3: both provider paths at concrete frames. -/
theorem claim_c3_schema_witness :
    (canonicalCols (fetch_data (Except.ok goodFrame) (Except.error "x")).1.cols ∧
     List.Chain' (· < ·) (fetch_data (Except.ok goodFrame) (Except.error "x")).1.index) ∧
    (canonicalCols (fetch_data (Except.error "e") (Except.ok csvFrame)).1.cols ∧
     List.Chain' (· < ·) (fetch_data (Except.error "e") (Except.ok csvFrame)).1.index) :=
  ⟨(claim_c3_schema _ _).1 goodFrame rfl (by decide) (by decide)
     (List.chain'_cons.mpr ⟨by norm_num, List.chain'_singleton _⟩),
   (claim_c3_schema _ _).2 (Or.inl ⟨_, rfl⟩) csvFrame csvDated rfl (by decide)
     (by decide) (by decide) (by decide)
     (List.nodup_cons.mpr ⟨by norm_num, List.nodup_singleton _⟩)⟩

theorem optAdd_none_left (x : Option ℚ) : optAdd none x = none := by cases x <;> rfl

theorem optAdd_none_right (x : Option ℚ) : optAdd x none = none := by cases x <;> rfl

theorem mean_defined_of_var_defined (n : Nat) (xs : List ℚ) (t : Nat) (v : ℚ)
    (h : (rollingVar n xs).getD t none = some v) :
    ∃ w, (rollingMean n xs).getD t none = some w := by
  rcases Nat.lt_or_ge t xs.length with ht | ht
  · rw [rollingVar_getD n xs t ht] at h
    by_cases hc : max n 1 ≤ (windowAt n xs t).length ∧ 2 ≤ (windowAt n xs t).length
    · rw [rollingMean_getD n xs t ht, if_pos hc.1]
      exact ⟨_, rfl⟩
    · rw [if_neg hc] at h
      cases h
  · rw [getD_none_of_le _ t (by rw [length_rollingVar]; exact ht)] at h
    cases h

theorem optSub_none_left (x : Option ℚ) : optSub none x = none := by cases x <;> rfl

theorem optSub_none_right (x : Option ℚ) : optSub x none = none := by cases x <;> rfl

theorem optDiv_none_right (x : Option ℚ) : optDiv x none = none := by cases x <;> rfl

theorem calc_bb_ok (sqrtQ : ℚ → ℚ) (close : Series ℚ) (n : Int) (k : ℚ)
    (hn : 0 ≤ n) :
    calc_bb sqrtQ close n k = Except.ok (bbExpand sqrtQ close n k) := by
  unfold calc_bb
  rw [if_neg (by omega)]
  rfl

theorem calc_macd_ok (close : Series ℚ) (fast slow signal : Int)
    (hf : 1 ≤ fast) (hs : 1 ≤ slow) (hsig : 1 ≤ signal) :
    calc_macd close fast slow signal = Except.ok (macdExpand close fast slow signal) := by
  unfold calc_macd
  rw [if_neg (by omega), if_neg (by omega), if_neg (by omega)]
  rfl

theorem rsi_alpha_cond (n : Int) (hn : 1 ≤ n) :
    0 < 1 / (n : ℚ) ∧ 1 / (n : ℚ) ≤ 1 := by
  have h1 : (1 : ℚ) ≤ (n : ℚ) := by exact_mod_cast hn
  constructor
  · positivity
  · rw [div_le_one (by linarith)]
    exact h1

theorem calc_rsi_ok (close : Series ℚ) (n : Int) (hn : 1 ≤ n) :
    calc_rsi close n = Except.ok (rsiExpand close n) := by
  unfold calc_rsi
  rw [if_neg (by omega), if_pos (rsi_alpha_cond n hn)]
  rfl

theorem calc_rsi_zero (close : Series ℚ) : calc_rsi close 0 = Except.error "division by zero" := by
  unfold calc_rsi
  rw [if_pos rfl]

theorem calc_rsi_neg (close : Series ℚ) (n : Int) (hn : n < 0) :
    calc_rsi close n = Except.error "alpha must satisfy: 0 < alpha <= 1" := by
  unfold calc_rsi
  rw [if_neg (by omega), if_neg]
  intro hc
  have hcast : (n : ℚ) < 0 := by exact_mod_cast hn
  have : 1 / (n : ℚ) < 0 := by
    apply div_neg_of_pos_of_neg
    · norm_num
    · exact hcast
  linarith [hc.1]

/-- C4: whenever `calc_bb` succeeds with window `n ≥ 1`, the band spread
`upper − lower` equals `2·k` times the rolling standard deviation at
every position (in NaN-propagating arithmetic, so both sides are
undefined together); the middle band at every position `t ≥ n−1` is
exactly the simple moving average of the `n` closes ending at `t`; and
all three outputs are undefined at the first `n−1` positions. -/
theorem claim_c4_bollinger (sqrtQ : ℚ → ℚ) (close : Series ℚ) (n : Int) (k : ℚ)
    (hn : 1 ≤ n)
    (r : Series (Option ℚ) × Series (Option ℚ) × Series (Option ℚ))
    (h : calc_bb sqrtQ close n k = Except.ok r) :
    (∀ t, optSub (vAt r.1 t) (vAt r.2.2 t) =
      optScale (2 * k) ((rollingStd sqrtQ n.toNat close.vals).getD t none)) ∧
    (∀ t, n.toNat ≤ t + 1 → t < close.vals.length →
      vAt r.2.1 t = some (smaSpec n.toNat close.vals t)) ∧
    (∀ t, t + 1 < n.toNat →
      vAt r.1 t = none ∧ vAt r.2.1 t = none ∧ vAt r.2.2 t = none) := by
  rw [calc_bb_ok sqrtQ close n k (by omega)] at h
  injection h with h
  subst h
  have hlen : (rollingMean n.toNat close.vals).length =
      ((rollingStd sqrtQ n.toNat close.vals).map (optScale k)).length := by
    simp [length_rollingMean, length_rollingStd]
  refine ⟨?_, ?_, ?_⟩
  · intro t
    show optSub
      ((List.zipWith optAdd (rollingMean n.toNat close.vals)
        ((rollingStd sqrtQ n.toNat close.vals).map (optScale k))).getD t none)
      ((List.zipWith optSub (rollingMean n.toNat close.vals)
        ((rollingStd sqrtQ n.toNat close.vals).map (optScale k))).getD t none) =
      optScale (2 * k) ((rollingStd sqrtQ n.toNat close.vals).getD t none)
    rw [getD_zipWith optAdd rfl _ _ hlen t, getD_zipWith optSub rfl _ _ hlen t,
      getD_map (optScale k) rfl _ t, rollingStd, getD_map (Option.map sqrtQ) rfl _ t]
    cases hV : (rollingVar n.toNat close.vals).getD t none with
    | none =>
      simp only [Option.map_none', optScale, optAdd_none_right, optSub_none_left,
        optSub_none_right]
    | some v =>
      obtain ⟨w, hM⟩ := mean_defined_of_var_defined n.toNat close.vals t v hV
      rw [hM]
      simp only [Option.map_some', optScale, optAdd, optSub]
      exact congrArg some (by ring)
  · intro t h1 h2
    exact rollingMean_defined n.toNat close.vals t (by omega) h1 h2
  · intro t hlt
    have hmid : (rollingMean n.toNat close.vals).getD t none = none :=
      rollingMean_none_of_lt n.toNat close.vals t hlt
    refine ⟨?_, hmid, ?_⟩
    · show (List.zipWith optAdd (rollingMean n.toNat close.vals)
        ((rollingStd sqrtQ n.toNat close.vals).map (optScale k))).getD t none = none
      rw [getD_zipWith optAdd rfl _ _ hlen t, hmid, optAdd_none_left]
    · show (List.zipWith optSub (rollingMean n.toNat close.vals)
        ((rollingStd sqrtQ n.toNat close.vals).map (optScale k))).getD t none = none
      rw [getD_zipWith optSub rfl _ _ hlen t, hmid, optSub_none_left]

/-- Witness for C4 at the three-point series, window 2, multiplier 1. -/
theorem claim_c4_bollinger_witness :
    (∀ t, optSub (vAt (bbExpand zeroSqrt bbClose 2 1).1 t)
        (vAt (bbExpand zeroSqrt bbClose 2 1).2.2 t) =
      optScale (2 * 1) ((rollingStd zeroSqrt (2 : Int).toNat bbClose.vals).getD t none)) ∧
    (∀ t, (2 : Int).toNat ≤ t + 1 → t < bbClose.vals.length →
      vAt (bbExpand zeroSqrt bbClose 2 1).2.1 t =
        some (smaSpec (2 : Int).toNat bbClose.vals t)) ∧
    (∀ t, t + 1 < (2 : Int).toNat →
      vAt (bbExpand zeroSqrt bbClose 2 1).1 t = none ∧
      vAt (bbExpand zeroSqrt bbClose 2 1).2.1 t = none ∧
      vAt (bbExpand zeroSqrt bbClose 2 1).2.2 t = none) :=
  claim_c4_bollinger zeroSqrt bbClose 2 1 (by norm_num) (bbExpand zeroSqrt bbClose 2 1)
    (calc_bb_ok zeroSqrt bbClose 2 1 (by norm_num))

theorem calc_macd_err_fast (close : Series ℚ) (fast slow signal : Int)
    (hf : fast < 1) :
    calc_macd close fast slow signal = Except.error "span must satisfy: span >= 1" := by
  simp only [calc_macd, if_pos hf]

theorem calc_macd_err_slow (close : Series ℚ) (fast slow signal : Int)
    (hf : ¬ fast < 1) (hs : slow < 1) :
    calc_macd close fast slow signal = Except.error "span must satisfy: span >= 1" := by
  simp only [calc_macd, if_neg hf, if_pos hs]

theorem calc_macd_err_signal (close : Series ℚ) (fast slow signal : Int)
    (hf : ¬ fast < 1) (hs : ¬ slow < 1) (hsig : signal < 1) :
    calc_macd close fast slow signal = Except.error "span must satisfy: span >= 1" := by
  simp only [calc_macd, if_neg hf, if_neg hs, if_pos hsig]

/-- C5: whenever `calc_macd` succeeds, the histogram equals the macd line
minus the signal line at every position, exactly; the macd line is the
pointwise difference of the fast and slow recursive unadjusted EMAs
(each seeded from the first close, smoothing factor `2/(span+1)`); and
the signal line is the same-variant EMA of the macd line over the signal
span.  `emaSpec` is the spec's recursion, stated independently of the
pandas `ewm` kernel. -/
theorem claim_c5_macd (close : Series ℚ) (fast slow signal : Int)
    (r : Series (Option ℚ) × Series (Option ℚ) × Series (Option ℚ))
    (h : calc_macd close fast slow signal = Except.ok r) :
    (∀ t, vAt r.2.2 t = optSub (vAt r.1 t) (vAt r.2.1 t)) ∧
    r.1.vals = (List.zipWith (fun a b => a - b)
      (emaSpec (2 / ((fast : ℚ) + 1)) close.vals)
      (emaSpec (2 / ((slow : ℚ) + 1)) close.vals)).map some ∧
    r.2.1.vals = (emaSpec (2 / ((signal : ℚ) + 1))
      (List.zipWith (fun a b => a - b)
        (emaSpec (2 / ((fast : ℚ) + 1)) close.vals)
        (emaSpec (2 / ((slow : ℚ) + 1)) close.vals))).map some := by
  have hfe : ¬ fast < 1 := by
    intro hf
    rw [calc_macd_err_fast close fast slow signal hf] at h
    exact Except.noConfusion h
  have hse : ¬ slow < 1 := by
    intro hs
    rw [calc_macd_err_slow close fast slow signal hfe hs] at h
    exact Except.noConfusion h
  have hsige : ¬ signal < 1 := by
    intro hsig
    rw [calc_macd_err_signal close fast slow signal hfe hse hsig] at h
    exact Except.noConfusion h
  rw [calc_macd_ok close fast slow signal (by omega) (by omega) (by omega)] at h
  injection h with h
  subst h
  have hml : (macdLineS close fast slow).vals =
      (List.zipWith (fun a b => a - b)
        (emaSpec (2 / ((fast : ℚ) + 1)) close.vals)
        (emaSpec (2 / ((slow : ℚ) + 1)) close.vals)).map some := by
    show List.zipWith optSub (ewm_mean (2 / ((fast : ℚ) + 1)) (close.vals.map some))
      (ewm_mean (2 / ((slow : ℚ) + 1)) (close.vals.map some)) = _
    rw [ewm_mean_defined, ewm_mean_defined, List.zipWith_map, List.map_zipWith]
    rfl
  refine ⟨?_, hml, ?_⟩
  · intro t
    have hlen : (macdLineS close fast slow).vals.length =
        (ewm_mean (2 / ((signal : ℚ) + 1)) (macdLineS close fast slow).vals).length :=
      (length_ewm_mean _ _).symm
    exact getD_zipWith optSub rfl _ _ hlen t
  · show ewm_mean (2 / ((signal : ℚ) + 1)) (macdLineS close fast slow).vals = _
    rw [hml, ewm_mean_defined]

/-- Witness for C5 at the three-point series with spans (2, 3, 2). -/
theorem claim_c5_macd_witness :
    (∀ t, vAt (macdExpand bbClose 2 3 2).2.2 t =
      optSub (vAt (macdExpand bbClose 2 3 2).1 t) (vAt (macdExpand bbClose 2 3 2).2.1 t)) ∧
    (macdExpand bbClose 2 3 2).1.vals = (List.zipWith (fun a b => a - b)
      (emaSpec (2 / (((2 : Int) : ℚ) + 1)) bbClose.vals)
      (emaSpec (2 / (((3 : Int) : ℚ) + 1)) bbClose.vals)).map some ∧
    (macdExpand bbClose 2 3 2).2.1.vals = (emaSpec (2 / (((2 : Int) : ℚ) + 1))
      (List.zipWith (fun a b => a - b)
        (emaSpec (2 / (((2 : Int) : ℚ) + 1)) bbClose.vals)
        (emaSpec (2 / (((3 : Int) : ℚ) + 1)) bbClose.vals))).map some :=
  claim_c5_macd bbClose 2 3 2 (macdExpand bbClose 2 3 2)
    (calc_macd_ok bbClose 2 3 2 (by norm_num) (by norm_num) (by norm_num))

theorem optDiv_eq_some (x y : Option ℚ) (v : ℚ) (h : optDiv x y = some v) :
    ∃ g l, x = some g ∧ y = some l ∧ l ≠ 0 ∧ v = g / l := by
  cases x with
  | none => cases y <;> simp [optDiv] at h
  | some g =>
    cases y with
    | none => simp [optDiv] at h
    | some l =>
      by_cases hl : l = 0
      · simp only [optDiv, if_pos hl] at h
        cases h
      · simp only [optDiv, if_neg hl] at h
        injection h with h
        exact ⟨g, l, rfl, rfl, hl, h.symm⟩

theorem replace0_eq_some (o : Option ℚ) (l : ℚ) (h : replace0 o = some l) :
    o = some l ∧ l ≠ 0 := by
  by_cases h0 : o = some 0
  · rw [replace0, if_pos h0] at h
    cases h
  · rw [replace0, if_neg h0] at h
    refine ⟨h, fun hl0 => h0 ?_⟩
    rw [h, hl0]

theorem gain_nonneg (close : Series ℚ) (n : Int) (hn : 1 ≤ n) :
    ∀ o ∈ (gainS close n).vals, ∀ q : ℚ, o = some q → 0 ≤ q := by
  obtain ⟨ha1, ha2⟩ := rsi_alpha_cond n hn
  have hin : ∀ o ∈ (diffL close.vals).map (Option.map fun d => max d 0),
      ∀ q : ℚ, o = some q → 0 ≤ q := by
    intro o ho q hq
    rcases List.mem_map.mp ho with ⟨o', _, rfl⟩
    rcases Option.map_eq_some'.mp hq with ⟨d, _, hq2⟩
    rw [← hq2]
    exact le_max_right d 0
  exact ewmAux_nonneg _ ha1 ha2 _ hin none 1 (by norm_num)
    (fun q hq => Option.noConfusion hq)

theorem loss_nonneg (close : Series ℚ) (n : Int) (hn : 1 ≤ n) :
    ∀ o ∈ (lossS close n).vals, ∀ q : ℚ, o = some q → 0 ≤ q := by
  obtain ⟨ha1, ha2⟩ := rsi_alpha_cond n hn
  have hin : ∀ o ∈ (diffL close.vals).map (Option.map fun d => -(min d 0)),
      ∀ q : ℚ, o = some q → 0 ≤ q := by
    intro o ho q hq
    rcases List.mem_map.mp ho with ⟨o', _, rfl⟩
    rcases Option.map_eq_some'.mp hq with ⟨d, _, hq2⟩
    rw [← hq2]
    exact neg_nonneg.mpr (min_le_right d 0)
  exact ewmAux_nonneg _ ha1 ha2 _ hin none 1 (by norm_num)
    (fun q hq => Option.noConfusion hq)

theorem rsiExpand_getD (close : Series ℚ) (n : Int) (t : Nat) :
    vAt (rsiExpand close n) t =
      (Option.map (fun q => 100 - q)
        ((Option.map (fun q => 1 + q)
          (optDiv ((gainS close n).vals.getD t none)
            (replace0 ((lossS close n).vals.getD t none)))).bind
          fun q => if q = 0 then none else some (100 / q))) := by
  have hlen : (gainS close n).vals.length =
      ((lossS close n).vals.map replace0).length := by
    simp [gainS, lossS, length_ewm_mean]
  show ((((List.zipWith optDiv (gainS close n).vals
      ((lossS close n).vals.map replace0)).map (Option.map fun q => 1 + q)).map
      (fun o => o.bind fun q => if q = 0 then none else some (100 / q))).map
      (Option.map fun q => 100 - q)).getD t none = _
  rw [getD_map (Option.map fun q => 100 - q) rfl,
    getD_map (fun o => o.bind fun q => if q = 0 then none else some (100 / q)) rfl,
    getD_map (Option.map fun q => 1 + q) rfl,
    getD_zipWith optDiv rfl _ _ hlen t,
    getD_map replace0 rfl]

/-- C6: whenever `calc_rsi` succeeds, every defined point of the output
lies in the closed interval [0, 100]; and at every position where the
smoothed loss equals zero the output is undefined (`replace(0, nan)`
turns the zero denominator into NaN — no infinity, no raised error). -/
theorem claim_c6_rsi (close : Series ℚ) (n : Int) (r : Series (Option ℚ))
    (h : calc_rsi close n = Except.ok r) :
    (∀ t q, vAt r t = some q → 0 ≤ q ∧ q ≤ 100) ∧
    (∀ t, (lossS close n).vals.getD t none = some 0 → vAt r t = none) := by
  have hn : 1 ≤ n := by
    rcases lt_trichotomy n 0 with hlt | heq | hgt
    · rw [calc_rsi_neg close n hlt] at h
      exact Except.noConfusion h
    · rw [heq, calc_rsi_zero close] at h
      exact Except.noConfusion h
    · omega
  rw [calc_rsi_ok close n hn] at h
  injection h with h
  subst h
  constructor
  · intro t q hq
    rw [rsiExpand_getD close n t] at hq
    cases hD : optDiv ((gainS close n).vals.getD t none)
        (replace0 ((lossS close n).vals.getD t none)) with
    | none =>
      rw [hD] at hq
      cases hq
    | some v =>
      rw [hD] at hq
      obtain ⟨g, l, hg, hl, hl0, hv⟩ := optDiv_eq_some _ _ v hD
      obtain ⟨hlval, hlne⟩ := replace0_eq_some _ l hl
      have hgnn : 0 ≤ g :=
        gain_nonneg close n hn _ (mem_of_getD_some _ t g hg) g rfl
      have hlnn : 0 ≤ l :=
        loss_nonneg close n hn _ (mem_of_getD_some _ t l hlval) l rfl
      have hlpos : 0 < l := lt_of_le_of_ne hlnn (Ne.symm hlne)
      have hvnn : 0 ≤ v := hv ▸ div_nonneg hgnn hlnn
      have h1v : (0 : ℚ) < 1 + v := by linarith
      rw [Option.map_some', Option.some_bind] at hq
      rw [if_neg (show ¬(1 + v = (0 : ℚ)) by linarith)] at hq
      rw [Option.map_some'] at hq
      injection hq with hq
      have hdivpos : (0 : ℚ) < 100 / (1 + v) := by positivity
      have hdivle : 100 / (1 + v) ≤ 100 := by
        rw [div_le_iff₀ h1v]
        nlinarith
      constructor
      · linarith [hq]
      · linarith [hq]
  · intro t hl
    rw [rsiExpand_getD close n t, hl]
    have hrep : replace0 (some (0 : ℚ)) = none := by simp [replace0]
    rw [hrep, optDiv_none_right]
    rfl

/-- Witness for C6 at the one-point series with period 1. -/
theorem claim_c6_rsi_witness :
    (∀ t q, vAt (rsiExpand oneClose 1) t = some q → 0 ≤ q ∧ q ≤ 100) ∧
    (∀ t, (lossS oneClose 1).vals.getD t none = some 0 →
      vAt (rsiExpand oneClose 1) t = none) :=
  claim_c6_rsi oneClose 1 (rsiExpand oneClose 1) (calc_rsi_ok oneClose 1 (by norm_num))

theorem calc_bb_err (sqrtQ : ℚ → ℚ) (close : Series ℚ) (n : Int) (k : ℚ)
    (hn : n < 0) :
    calc_bb sqrtQ close n k = Except.error "window must be an integer 0 or greater" := by
  unfold calc_bb
  rw [if_pos hn]

theorem std_scaled_none_of_le_one (sqrtQ : ℚ → ℚ) (k : ℚ) (n : Nat) (hn : n ≤ 1)
    (xs : List ℚ) : ∀ o ∈ (rollingStd sqrtQ n xs).map (optScale k), o = none := by
  intro o ho
  rcases List.mem_map.mp ho with ⟨o', ho', rfl⟩
  rw [rollingStd] at ho'
  rcases List.mem_map.mp ho' with ⟨o'', ho'', rfl⟩
  rw [rollingVar_none_of_le_one n hn xs o'' ho'']
  rfl

/-- Counterexample to C7 as stated: at window parameter `n = 0` (which the
claim includes) the RSI computation raises (`alpha = 1/n` is a Python
`ZeroDivisionError`) instead of yielding degenerate output. -/
theorem claim_c7_counterexample : ¬ ∃ r, calc_rsi oneClose 0 = Except.ok r := by
  rintro ⟨r, hr⟩
  rw [calc_rsi_zero] at hr
  exact Except.noConfusion hr

/-- C7 (amended): of the window values `n ≤ 1`, only `n = 1` is
degenerate-but-safe for every indicator: Bollinger Bands at `n = 1`
return the closes as the middle band with both bands all-undefined, and
RSI at `n = 1` succeeds; Bollinger Bands at `n = 0` return all-undefined
output; but RSI at `n = 0` raises (`ZeroDivisionError` from `1/n`) and
every negative `n` raises in both computations (pandas window/alpha
validation) — values the sliders (minima 1 and 2) cannot produce, so no
reachable parameter crashes the render. -/
theorem claim_c7_degenerate (sqrtQ : ℚ → ℚ) (close : Series ℚ) (k : ℚ) (n : Int)
    (hneg : n < 0) :
    (∃ r, calc_bb sqrtQ close 1 k = Except.ok r ∧
      r.2.1.vals = close.vals.map some ∧
      (∀ o ∈ r.1.vals, o = none) ∧ (∀ o ∈ r.2.2.vals, o = none)) ∧
    (∃ r, calc_bb sqrtQ close 0 k = Except.ok r ∧
      (∀ o ∈ r.1.vals, o = none) ∧ (∀ o ∈ r.2.1.vals, o = none) ∧
      (∀ o ∈ r.2.2.vals, o = none)) ∧
    (∃ r, calc_rsi close 1 = Except.ok r) ∧
    calc_rsi close 0 = Except.error "division by zero" ∧
    calc_bb sqrtQ close n k = Except.error "window must be an integer 0 or greater" ∧
    calc_rsi close n = Except.error "alpha must satisfy: 0 < alpha <= 1" := by
  refine ⟨⟨bbExpand sqrtQ close 1 k, calc_bb_ok sqrtQ close 1 k (by norm_num),
      ?_, ?_, ?_⟩,
    ⟨bbExpand sqrtQ close 0 k, calc_bb_ok sqrtQ close 0 k (by norm_num), ?_, ?_, ?_⟩,
    ⟨rsiExpand close 1, calc_rsi_ok close 1 (by norm_num)⟩,
    calc_rsi_zero close, calc_bb_err sqrtQ close n k hneg,
    calc_rsi_neg close n hneg⟩
  · exact rollingMean_one close.vals
  · exact zipWith_none_right optAdd optAdd_none_right _ _
      (std_scaled_none_of_le_one sqrtQ k 1 (by norm_num) close.vals)
  · exact zipWith_none_right optSub optSub_none_right _ _
      (std_scaled_none_of_le_one sqrtQ k 1 (by norm_num) close.vals)
  · exact zipWith_none_right optAdd optAdd_none_right _ _
      (std_scaled_none_of_le_one sqrtQ k 0 (by norm_num) close.vals)
  · exact rollingMean_none_of_zero close.vals
  · exact zipWith_none_right optSub optSub_none_right _ _
      (std_scaled_none_of_le_one sqrtQ k 0 (by norm_num) close.vals)

/-- Witness for the amended C7 at the one-point series with `n = -2`. -/
theorem claim_c7_degenerate_witness :
    (∃ r, calc_bb zeroSqrt oneClose 1 1 = Except.ok r ∧
      r.2.1.vals = oneClose.vals.map some ∧
      (∀ o ∈ r.1.vals, o = none) ∧ (∀ o ∈ r.2.2.vals, o = none)) ∧
    (∃ r, calc_bb zeroSqrt oneClose 0 1 = Except.ok r ∧
      (∀ o ∈ r.1.vals, o = none) ∧ (∀ o ∈ r.2.1.vals, o = none) ∧
      (∀ o ∈ r.2.2.vals, o = none)) ∧
    (∃ r, calc_rsi oneClose 1 = Except.ok r) ∧
    calc_rsi oneClose 0 = Except.error "division by zero" ∧
    calc_bb zeroSqrt oneClose (-2) 1 = Except.error "window must be an integer 0 or greater" ∧
    calc_rsi oneClose (-2) = Except.error "alpha must satisfy: 0 < alpha <= 1" :=
  claim_c7_degenerate zeroSqrt oneClose 1 (-2) (by norm_num)

/-- C9: every series an indicator computation produces carries exactly
the input's date index (same `idx`) and one value per input position
(same `vals` length) — no indicator adds or removes dates.  Stated for
every parameter choice under which the computation produces output at
all (invalid windows/spans raise instead and produce no series). -/
theorem claim_c9_alignment (sqrtQ : ℚ → ℚ) (close : Series ℚ) (n : Int) (k : ℚ)
    (fast slow signal nr : Int) :
    (∀ r, calc_bb sqrtQ close n k = Except.ok r →
      (r.1.idx = close.idx ∧ r.1.vals.length = close.vals.length) ∧
      (r.2.1.idx = close.idx ∧ r.2.1.vals.length = close.vals.length) ∧
      (r.2.2.idx = close.idx ∧ r.2.2.vals.length = close.vals.length)) ∧
    (∀ r, calc_macd close fast slow signal = Except.ok r →
      (r.1.idx = close.idx ∧ r.1.vals.length = close.vals.length) ∧
      (r.2.1.idx = close.idx ∧ r.2.1.vals.length = close.vals.length) ∧
      (r.2.2.idx = close.idx ∧ r.2.2.vals.length = close.vals.length)) ∧
    (∀ r, calc_rsi close nr = Except.ok r →
      r.idx = close.idx ∧ r.vals.length = close.vals.length) := by
  refine ⟨?_, ?_, ?_⟩
  · intro r h
    have hn : ¬ n < 0 := by
      intro hn
      rw [calc_bb_err sqrtQ close n k hn] at h
      exact Except.noConfusion h
    rw [calc_bb_ok sqrtQ close n k (by omega)] at h
    injection h with h
    subst h
    refine ⟨⟨rfl, ?_⟩, ⟨rfl, length_rollingMean _ _⟩, ⟨rfl, ?_⟩⟩
    · show (List.zipWith optAdd (rollingMean n.toNat close.vals)
        ((rollingStd sqrtQ n.toNat close.vals).map (optScale k))).length = _
      simp [List.length_zipWith, length_rollingMean, length_rollingStd]
    · show (List.zipWith optSub (rollingMean n.toNat close.vals)
        ((rollingStd sqrtQ n.toNat close.vals).map (optScale k))).length = _
      simp [List.length_zipWith, length_rollingMean, length_rollingStd]
  · intro r h
    have hfe : ¬ fast < 1 := by
      intro hf
      rw [calc_macd_err_fast close fast slow signal hf] at h
      exact Except.noConfusion h
    have hse : ¬ slow < 1 := by
      intro hs
      rw [calc_macd_err_slow close fast slow signal hfe hs] at h
      exact Except.noConfusion h
    have hsige : ¬ signal < 1 := by
      intro hsig
      rw [calc_macd_err_signal close fast slow signal hfe hse hsig] at h
      exact Except.noConfusion h
    rw [calc_macd_ok close fast slow signal (by omega) (by omega) (by omega)] at h
    injection h with h
    subst h
    have hml : (macdLineS close fast slow).vals.length = close.vals.length := by
      simp [macdLineS, szip, List.length_zipWith, length_ewm_mean]
    refine ⟨⟨rfl, hml⟩, ⟨rfl, ?_⟩, ⟨rfl, ?_⟩⟩
    · show (ewm_mean (2 / ((signal : ℚ) + 1)) (macdLineS close fast slow).vals).length = _
      rw [length_ewm_mean, hml]
    · show (List.zipWith optSub (macdLineS close fast slow).vals
        (ewm_mean (2 / ((signal : ℚ) + 1)) (macdLineS close fast slow).vals)).length = _
      simp [List.length_zipWith, length_ewm_mean, hml]
  · intro r h
    have hnr : 1 ≤ nr := by
      rcases lt_trichotomy nr 0 with hlt | heq | hgt
      · rw [calc_rsi_neg close nr hlt] at h
        exact Except.noConfusion h
      · rw [heq, calc_rsi_zero close] at h
        exact Except.noConfusion h
      · omega
    rw [calc_rsi_ok close nr hnr] at h
    injection h with h
    subst h
    refine ⟨rfl, ?_⟩
    show ((((List.zipWith optDiv (gainS close nr).vals
      ((lossS close nr).vals.map replace0)).map (Option.map fun q => 1 + q)).map
      (fun o => o.bind fun q => if q = 0 then none else some (100 / q))).map
      (Option.map fun q => 100 - q)).length = _
    simp [List.length_zipWith, gainS, lossS, length_ewm_mean, length_diffL]

/-- Witness for C9 at the three-point series with valid parameters. -/
theorem claim_c9_alignment_witness :
    (((bbExpand zeroSqrt bbClose 2 1).1.idx = bbClose.idx ∧
      (bbExpand zeroSqrt bbClose 2 1).1.vals.length = bbClose.vals.length) ∧
     ((bbExpand zeroSqrt bbClose 2 1).2.1.idx = bbClose.idx ∧
      (bbExpand zeroSqrt bbClose 2 1).2.1.vals.length = bbClose.vals.length) ∧
     ((bbExpand zeroSqrt bbClose 2 1).2.2.idx = bbClose.idx ∧
      (bbExpand zeroSqrt bbClose 2 1).2.2.vals.length = bbClose.vals.length)) ∧
    (((macdExpand bbClose 2 3 2).1.idx = bbClose.idx ∧
      (macdExpand bbClose 2 3 2).1.vals.length = bbClose.vals.length) ∧
     ((macdExpand bbClose 2 3 2).2.1.idx = bbClose.idx ∧
      (macdExpand bbClose 2 3 2).2.1.vals.length = bbClose.vals.length) ∧
     ((macdExpand bbClose 2 3 2).2.2.idx = bbClose.idx ∧
      (macdExpand bbClose 2 3 2).2.2.vals.length = bbClose.vals.length)) ∧
    ((rsiExpand bbClose 2).idx = bbClose.idx ∧
     (rsiExpand bbClose 2).vals.length = bbClose.vals.length) :=
  ⟨(claim_c9_alignment zeroSqrt bbClose 2 1 2 3 2 2).1 _
      (calc_bb_ok zeroSqrt bbClose 2 1 (by norm_num)),
   (claim_c9_alignment zeroSqrt bbClose 2 1 2 3 2 2).2.1 _
      (calc_macd_ok bbClose 2 3 2 (by norm_num) (by norm_num) (by norm_num)),
   (claim_c9_alignment zeroSqrt bbClose 2 1 2 3 2 2).2.2 _
      (calc_rsi_ok bbClose 2 (by norm_num))⟩

theorem forall_mem_of_getD (l : List (Option ℚ)) (P : Option ℚ → Prop)
    (h : ∀ t, t < l.length → P (l.getD t none)) : ∀ o ∈ l, P o := by
  intro o ho
  rcases List.mem_iff_getElem.mp ho with ⟨i, hi, rfl⟩
  have hP := h i hi
  rw [List.getD_eq_getElem?_getD, List.getElem?_eq_getElem hi] at hP
  exact hP

theorem rollingMean_replicate_or (n' N : Nat) (c : ℚ) (t : Nat) :
    (rollingMean n' (List.replicate N c)).getD t none = none ∨
    (rollingMean n' (List.replicate N c)).getD t none = some c := by
  rcases Nat.lt_or_ge t (List.replicate N c).length with ht | ht
  · rw [rollingMean_getD _ _ _ ht]
    by_cases hc : max n' 1 ≤ (windowAt n' (List.replicate N c) t).length
    · right
      rw [if_pos hc]
      have hw : windowAt n' (List.replicate N c) t =
          List.replicate (min (t + 1) N - (t + 1 - n')) c := by
        rw [windowAt, List.take_replicate, List.drop_replicate]
      have hj : 1 ≤ min (t + 1) N - (t + 1 - n') := by
        rw [hw, List.length_replicate] at hc
        omega
      rw [hw, List.sum_replicate, List.length_replicate, nsmul_eq_mul]
      congr 1
      rw [mul_div_cancel_left₀]
      exact Nat.cast_ne_zero.mpr (by omega)
    · left
      exact if_neg hc
  · left
    exact getD_none_of_le _ _ (by rw [length_rollingMean]; exact ht)

theorem rollingVar_replicate_or (n' N : Nat) (c : ℚ) (t : Nat) :
    (rollingVar n' (List.replicate N c)).getD t none = none ∨
    (rollingVar n' (List.replicate N c)).getD t none = some 0 := by
  rcases Nat.lt_or_ge t (List.replicate N c).length with ht | ht
  · rw [rollingVar_getD _ _ _ ht]
    by_cases hc : max n' 1 ≤ (windowAt n' (List.replicate N c) t).length ∧
        2 ≤ (windowAt n' (List.replicate N c) t).length
    · right
      rw [if_pos hc]
      have hw : windowAt n' (List.replicate N c) t =
          List.replicate (min (t + 1) N - (t + 1 - n')) c := by
        rw [windowAt, List.take_replicate, List.drop_replicate]
      have hj : 1 ≤ min (t + 1) N - (t + 1 - n') := by
        rw [hw, List.length_replicate] at hc
        omega
      have hjq : ((min (t + 1) N - (t + 1 - n') : Nat) : ℚ) ≠ 0 :=
        Nat.cast_ne_zero.mpr (by omega)
      simp only [hw, List.length_replicate, List.sum_replicate, List.map_replicate,
        nsmul_eq_mul]
      have hcc : c - ((min (t + 1) N - (t + 1 - n') : Nat) : ℚ) * c /
          ((min (t + 1) N - (t + 1 - n') : Nat) : ℚ) = 0 := by
        rw [mul_div_cancel_left₀ _ hjq, sub_self]
      rw [hcc]
      norm_num
    · left
      exact if_neg hc
  · left
    exact getD_none_of_le _ _ (by rw [length_rollingVar]; exact ht)

theorem smaSpec_replicate (n' N t : Nat) (c : ℚ) (hn' : 1 ≤ n') (h1 : n' ≤ t + 1)
    (h2 : t < N) : smaSpec n' (List.replicate N c) t = c := by
  rw [smaSpec, List.drop_replicate, List.take_replicate]
  have hmin : min n' (N - (t + 1 - n')) = n' := by omega
  rw [hmin, List.sum_replicate, nsmul_eq_mul, mul_div_cancel_left₀]
  exact Nat.cast_ne_zero.mpr (by omega)

theorem zipWith_replicate {α β γ : Type} (f : α → β → γ) (n : Nat) (a : α) (b : β) :
    List.zipWith f (List.replicate n a) (List.replicate n b) =
    List.replicate n (f a b) := by
  induction n with
  | zero => rfl
  | succ n ih => simp [List.replicate_succ, ih]

theorem diffL_replicate (N : Nat) (c : ℚ) :
    diffL (List.replicate (N + 1) c) = none :: List.replicate N (some 0) := by
  rw [List.replicate_succ, diffL]
  congr 1
  induction N with
  | zero => rfl
  | succ N ih =>
    rw [List.replicate_succ]
    show some (c - c) :: List.zipWith (fun b a => some (b - a))
      (List.replicate N c) (c :: List.replicate N c) = _
    rw [ih, sub_self, List.replicate_succ]

/-- C8: on the 30-day constant-100 close series, every defined Bollinger
value (upper, mid, lower) equals 100 — and the middle band is defined
and equal to 100 from position n−1 on; the MACD line and the signal line
are 0 at every one of the 30 points; and the RSI output is undefined at
every one of the 30 points.  Holds for every valid parameter choice and
any square root with `sqrtQ 0 = 0`. -/
theorem claim_c8_constant (sqrtQ : ℚ → ℚ) (hsq : sqrtQ 0 = 0)
    (n : Int) (hn : 1 ≤ n) (k : ℚ)
    (fast slow signal : Int) (hf : 1 ≤ fast) (hs : 1 ≤ slow) (hsig : 1 ≤ signal)
    (nr : Int) (hnr : 1 ≤ nr)
    (rb : Series (Option ℚ) × Series (Option ℚ) × Series (Option ℚ))
    (hb : calc_bb sqrtQ constClose n k = Except.ok rb)
    (rm : Series (Option ℚ) × Series (Option ℚ) × Series (Option ℚ))
    (hm : calc_macd constClose fast slow signal = Except.ok rm)
    (rr : Series (Option ℚ)) (hr : calc_rsi constClose nr = Except.ok rr) :
    (∀ o ∈ rb.1.vals, o = none ∨ o = some 100) ∧
    (∀ o ∈ rb.2.1.vals, o = none ∨ o = some 100) ∧
    (∀ o ∈ rb.2.2.vals, o = none ∨ o = some 100) ∧
    (∀ t, n.toNat ≤ t + 1 → t < 30 → vAt rb.2.1 t = some 100) ∧
    rm.1.vals = List.replicate 30 (some 0) ∧
    rm.2.1.vals = List.replicate 30 (some 0) ∧
    rr.vals = List.replicate 30 none := by
  have hcv : constClose.vals = List.replicate 30 (100 : ℚ) := rfl
  rw [calc_bb_ok sqrtQ constClose n k (by omega)] at hb
  injection hb with hb
  subst hb
  rw [calc_macd_ok constClose fast slow signal (by omega) (by omega) (by omega)] at hm
  injection hm with hm
  subst hm
  rw [calc_rsi_ok constClose nr hnr] at hr
  injection hr with hr
  subst hr
  have hmeanOr : ∀ t, (rollingMean n.toNat constClose.vals).getD t none = none ∨
      (rollingMean n.toNat constClose.vals).getD t none = some 100 := by
    intro t
    rw [hcv]
    exact rollingMean_replicate_or n.toNat 30 100 t
  have hvarOr : ∀ t, (rollingVar n.toNat constClose.vals).getD t none = none ∨
      (rollingVar n.toNat constClose.vals).getD t none = some 0 := by
    intro t
    rw [hcv]
    exact rollingVar_replicate_or n.toNat 30 100 t
  have hstdS : ∀ t,
      (((rollingStd sqrtQ n.toNat constClose.vals).map (optScale k)).getD t none = none) ∨
      (((rollingStd sqrtQ n.toNat constClose.vals).map (optScale k)).getD t none = some 0) := by
    intro t
    rw [getD_map (optScale k) rfl, rollingStd, getD_map (Option.map sqrtQ) rfl]
    rcases hvarOr t with h | h
    · rw [h]
      exact Or.inl rfl
    · rw [h]
      right
      simp [optScale, hsq]
  have hlen : (rollingMean n.toNat constClose.vals).length =
      ((rollingStd sqrtQ n.toNat constClose.vals).map (optScale k)).length := by
    simp [length_rollingMean, length_rollingStd]
  have hml : (macdLineS constClose fast slow).vals = List.replicate 30 (some 0) := by
    show List.zipWith optSub (ewm_mean (2 / ((fast : ℚ) + 1)) (constClose.vals.map some))
      (ewm_mean (2 / ((slow : ℚ) + 1)) (constClose.vals.map some)) = _
    rw [hcv, ewm_mean_defined, ewm_mean_defined, emaSpec_const, emaSpec_const,
      List.map_replicate, zipWith_replicate]
    show List.replicate 30 (some (100 - 100)) = _
    norm_num
  refine ⟨?_, ?_, ?_, ?_, hml, ?_, ?_⟩
  · refine forall_mem_of_getD _ _ (fun t _ => ?_)
    show (List.zipWith optAdd (rollingMean n.toNat constClose.vals)
        ((rollingStd sqrtQ n.toNat constClose.vals).map (optScale k))).getD t none = none ∨
      (List.zipWith optAdd (rollingMean n.toNat constClose.vals)
        ((rollingStd sqrtQ n.toNat constClose.vals).map (optScale k))).getD t none = some 100
    rw [getD_zipWith optAdd rfl _ _ hlen t]
    rcases hmeanOr t with hM | hM <;> rcases hstdS t with hS | hS <;> rw [hM, hS] <;>
      norm_num [optAdd, optAdd_none_left, optAdd_none_right]
  · exact forall_mem_of_getD _ _ (fun t _ => hmeanOr t)
  · refine forall_mem_of_getD _ _ (fun t _ => ?_)
    show (List.zipWith optSub (rollingMean n.toNat constClose.vals)
        ((rollingStd sqrtQ n.toNat constClose.vals).map (optScale k))).getD t none = none ∨
      (List.zipWith optSub (rollingMean n.toNat constClose.vals)
        ((rollingStd sqrtQ n.toNat constClose.vals).map (optScale k))).getD t none = some 100
    rw [getD_zipWith optSub rfl _ _ hlen t]
    rcases hmeanOr t with hM | hM <;> rcases hstdS t with hS | hS <;> rw [hM, hS] <;>
      norm_num [optSub, optSub_none_left, optSub_none_right]
  · intro t h1 h2
    show (rollingMean n.toNat constClose.vals).getD t none = some 100
    rw [hcv, rollingMean_defined n.toNat _ t (by omega) h1
      (by rw [List.length_replicate]; exact h2),
      smaSpec_replicate n.toNat 30 t 100 (by omega) h1 h2]
  · show ewm_mean (2 / ((signal : ℚ) + 1)) (macdLineS constClose fast slow).vals = _
    rw [hml, show (List.replicate 30 (some (0 : ℚ))) =
      (List.replicate 30 (0 : ℚ)).map some from (List.map_replicate).symm,
      ewm_mean_defined, emaSpec_const, List.map_replicate]
  · have hdiff : diffL constClose.vals = none :: List.replicate 29 (some 0) := by
      rw [hcv]
      exact diffL_replicate 29 100
    have hclipG : (diffL constClose.vals).map (Option.map fun d => max d 0) =
        none :: List.replicate 29 (some 0) := by
      rw [hdiff]
      simp [List.map_replicate]
    have hclipL : (diffL constClose.vals).map (Option.map fun d => -(min d 0)) =
        none :: List.replicate 29 (some 0) := by
      rw [hdiff]
      simp [List.map_replicate]
    have hewm : ewm_mean (1 / (nr : ℚ)) (none :: List.replicate 29 (some (0 : ℚ))) =
        none :: List.replicate 29 (some 0) := by
      show ewmAux (1 / (nr : ℚ)) (none, 1) (none :: List.replicate 29 (some (0 : ℚ))) = _
      rw [ewmAux_none_cons]
      congr 1
      rw [show (List.replicate 29 (some (0 : ℚ))) =
        (List.replicate 29 (0 : ℚ)).map some from (List.map_replicate).symm]
      show ewm_mean (1 / (nr : ℚ)) ((List.replicate 29 (0 : ℚ)).map some) = _
      rw [ewm_mean_defined, emaSpec_const, List.map_replicate]
    have hgain : (gainS constClose nr).vals = none :: List.replicate 29 (some 0) := by
      show ewm_mean (1 / (nr : ℚ))
        ((diffL constClose.vals).map (Option.map fun d => max d 0)) = _
      rw [hclipG]
      exact hewm
    have hloss : (lossS constClose nr).vals = none :: List.replicate 29 (some 0) := by
      show ewm_mean (1 / (nr : ℚ))
        ((diffL constClose.vals).map (Option.map fun d => -(min d 0))) = _
      rw [hclipL]
      exact hewm
    show ((((List.zipWith optDiv (gainS constClose nr).vals
      ((lossS constClose nr).vals.map replace0)).map (Option.map fun q => 1 + q)).map
      (fun o => o.bind fun q => if q = 0 then none else some (100 / q))).map
      (Option.map fun q => 100 - q)) = List.replicate 30 none
    rw [hgain, hloss]
    have h1 : (none :: List.replicate 29 (some (0 : ℚ))).map replace0 =
        none :: List.replicate 29 none := by
      simp [List.map_replicate, replace0]
    rw [h1]
    have h2 : List.zipWith optDiv (none :: List.replicate 29 (some (0 : ℚ)))
        (none :: List.replicate 29 (none : Option ℚ)) =
        none :: List.replicate 29 none := by
      show optDiv none none :: List.zipWith optDiv (List.replicate 29 (some (0 : ℚ)))
        (List.replicate 29 (none : Option ℚ)) = _
      rw [zipWith_replicate]
      rfl
    rw [h2]
    simp [List.map_replicate]

/-- Witness for C8 at the app's default parameters (20, 2, 12/26/9, 14). -/
theorem claim_c8_constant_witness :
    (∀ o ∈ (bbExpand zeroSqrt constClose 20 2).1.vals, o = none ∨ o = some 100) ∧
    (∀ o ∈ (bbExpand zeroSqrt constClose 20 2).2.1.vals, o = none ∨ o = some 100) ∧
    (∀ o ∈ (bbExpand zeroSqrt constClose 20 2).2.2.vals, o = none ∨ o = some 100) ∧
    (∀ t, (20 : Int).toNat ≤ t + 1 → t < 30 →
      vAt (bbExpand zeroSqrt constClose 20 2).2.1 t = some 100) ∧
    (macdExpand constClose 12 26 9).1.vals = List.replicate 30 (some 0) ∧
    (macdExpand constClose 12 26 9).2.1.vals = List.replicate 30 (some 0) ∧
    (rsiExpand constClose 14).vals = List.replicate 30 none :=
  claim_c8_constant zeroSqrt rfl 20 (by norm_num) 2 12 26 9 (by norm_num) (by norm_num)
    (by norm_num) 14 (by norm_num) (bbExpand zeroSqrt constClose 20 2)
    (calc_bb_ok zeroSqrt constClose 20 2 (by norm_num))
    (macdExpand constClose 12 26 9)
    (calc_macd_ok constClose 12 26 9 (by norm_num) (by norm_num) (by norm_num))
    (rsiExpand constClose 14) (calc_rsi_ok constClose 14 (by norm_num))
